import Mathlib

/-!
Verification of the torrent-client repository.

Shallow embedding of the Go sources:
* `src/unnamed/part_001` (package `message`, package `peer`)
* `src/handshake/handshake.go` (package `handshake`)
* `src/unnamed/part_002` (package `client`)
* `src/unnamed/part_000` (package `p2p`)

Bytes are modelled as `Nat` (values below 256 on the wire), byte slices as
`List Nat`, Go `error` results as `Except String`, and the byte stream of a
connection as a `List Nat` that read operations consume from the front.
-/

/-- `binary.BigEndian.Uint32` on the first four bytes of a slice.
Go panics when the slice is shorter than 4; every call site below
guards the length first, so the default branch is unreachable there. -/
def beBytes4 : List Nat → Nat
  | b0 :: b1 :: b2 :: b3 :: _ => ((b0 * 256 + b1) * 256 + b2) * 256 + b3
  | _ => 0

/-- `binary.BigEndian.PutUint32`: the four big-endian bytes of `n % 2^32`. -/
def natToBE4 (n : Nat) : List Nat :=
  [n / 16777216 % 256, n / 65536 % 256, n / 256 % 256, n % 256]

/-- Go `copy(dst, src)`: overwrite the first `min (len src) (len dst)`
elements of `dst` with those of `src`, keeping the rest of `dst`. -/
def goCopy (dst src : List Nat) : List Nat :=
  src.take dst.length ++ dst.drop (min src.length dst.length)

/-- `message.messageID` constants (part_001 lines 11-21). -/
def MsgChoke : Nat := 0
def MsgUnchoke : Nat := 1
def MsgInterested : Nat := 2
def MsgNotInterested : Nat := 3
def MsgHave : Nat := 4
def MsgBitfield : Nat := 5
def MsgRequest : Nat := 6
def MsgPiece : Nat := 7
def MsgCancel : Nat := 8

/-- `message.Message`: ID byte and payload (part_001 lines 24-27). -/
structure Message where
  ID : Nat
  Payload : List Nat
  deriving DecidableEq, Repr

/-- `Message.ParsePiece` (part_001 lines 46-67): validates a PIECE message
against the expected piece index and the piece buffer, copies the data into
the buffer at the embedded begin offset, and returns the number of bytes
copied together with the updated buffer (the Go code mutates `buf` in place). -/
def Message.ParsePiece (msg : Message) (expectedIndex : Nat) (buf : List Nat) :
    Except String (Nat × List Nat) :=
  if msg.ID ≠ MsgPiece then .error "expected PIECE"
  else if msg.Payload.length < 8 then .error "payload too short"
  else
    let index := beBytes4 (msg.Payload.take 4)
    if index ≠ expectedIndex then .error "wrong index"
    else
      let begin := beBytes4 ((msg.Payload.drop 4).take 4)
      if begin ≥ buf.length then .error "begin offset too high"
      else
        let data := msg.Payload.drop 8
        if begin + data.length > buf.length then .error "data too long"
        else .ok (data.length, buf.take begin ++ goCopy (buf.drop begin) data)

/-- `Message.ParseHave` (part_001 lines 70-79): validates a HAVE message and
returns the embedded piece index. -/
def Message.ParseHave (msg : Message) : Except String Nat :=
  if msg.ID ≠ MsgHave then .error "expected HAVE"
  else if msg.Payload.length ≠ 4 then .error "wrong payload length"
  else .ok (beBytes4 msg.Payload)

/-- `message.NewRequest` (part_001 lines 30-36). Go casts the int arguments
through `uint32`, hence the `% 2^32`. -/
def NewRequest (index begin length : Nat) : Message :=
  ⟨MsgRequest, natToBE4 (index % 4294967296) ++ natToBE4 (begin % 4294967296) ++
      natToBE4 (length % 4294967296)⟩

/-- `message.NewHave` (part_001 lines 39-43). -/
def NewHave (index : Nat) : Message :=
  ⟨MsgHave, natToBE4 (index % 4294967296)⟩

/-- `Message.Serialize` (part_001 lines 84-94). `none` is the keep-alive.
The frame is `<4-byte length><id byte><payload>` where the length byte count
is `uint32(len payload + 1)`.  When that `uint32` wraps to a value `w` with
`w = 0` or `w ≥ 2^32 - 4`, the Go code indexes past the end of the
`w + 4`-byte buffer it allocated (`buf[4] = ...` or `buf[0:4]`) and panics at
runtime; this is modelled as `none`.  Otherwise `copy(buf[5:], msg.Payload)`
copies only the first `w - 1` payload bytes. -/
def serializeMsg : Option Message → Option (List Nat)
  | none => some [0, 0, 0, 0]
  | some m =>
    let w := (m.Payload.length + 1) % 4294967296
    if w = 0 ∨ 4294967292 ≤ w then none
    else some (natToBE4 w ++ [m.ID % 256] ++ m.Payload.take (w - 1))

/-- `message.Read` (part_001 lines 98-123) over an explicit byte stream:
read a 4-byte big-endian length, return the keep-alive sentinel (`none`) if
it is zero, else read that many bytes and split them into id and payload.
Returns the parsed message and the remaining stream; `io.ReadFull` failure
(stream too short) is an error. -/
def readMsgStream : List Nat → Except String (Option Message × List Nat)
  | b0 :: b1 :: b2 :: b3 :: t =>
    let len := beBytes4 [b0, b1, b2, b3]
    if len = 0 then .ok (none, t)
    else if t.length < len then .error "EOF"
    else
      let messageBuf := t.take len
      .ok (some ⟨messageBuf.headD 0, messageBuf.drop 1⟩, t.drop len)
  | _ => .error "EOF"

/-- The clean form of the buffer update performed by a successful
`ParsePiece`: the data overwrites `buf[begin .. begin + len data)` and the
rest of `buf` is kept. -/
theorem goCopy_drop_of_le (buf data : List Nat) (begin : Nat)
    (h : begin + data.length ≤ buf.length) :
    goCopy (buf.drop begin) data = data ++ buf.drop (begin + data.length) := by
  unfold goCopy
  have hlen : (buf.drop begin).length = buf.length - begin := by
    simp [List.length_drop]
  have hd : data.length ≤ (buf.drop begin).length := by omega
  rw [List.take_of_length_le hd, min_eq_left hd, List.drop_drop]

/-- C2: `ParsePiece(expected_index, buf)` fails exactly when the id is not 7,
or the payload is shorter than 8 bytes, or the big-endian index in payload
bytes 0..3 differs from `expected_index`, or the big-endian begin in payload
bytes 4..7 is at least `len buf`, or begin plus the length of the remaining
data exceeds `len buf`; otherwise it returns the data length and the buffer
with the data copied in at `begin`, everything outside
`[begin, begin + len data)` unchanged. -/
theorem parsePiece_spec (msg : Message) (expectedIndex : Nat) (buf : List Nat) :
    ((msg.ParsePiece expectedIndex buf).isOk = false ↔
      (msg.ID ≠ 7 ∨ msg.Payload.length < 8 ∨
        beBytes4 (msg.Payload.take 4) ≠ expectedIndex ∨
        buf.length ≤ beBytes4 ((msg.Payload.drop 4).take 4) ∨
        buf.length < beBytes4 ((msg.Payload.drop 4).take 4) + (msg.Payload.drop 8).length)) ∧
    (msg.ID = 7 → 8 ≤ msg.Payload.length →
      beBytes4 (msg.Payload.take 4) = expectedIndex →
      beBytes4 ((msg.Payload.drop 4).take 4) < buf.length →
      beBytes4 ((msg.Payload.drop 4).take 4) + (msg.Payload.drop 8).length ≤ buf.length →
      msg.ParsePiece expectedIndex buf =
        .ok ((msg.Payload.drop 8).length,
          buf.take (beBytes4 ((msg.Payload.drop 4).take 4)) ++ msg.Payload.drop 8 ++
            buf.drop (beBytes4 ((msg.Payload.drop 4).take 4) + (msg.Payload.drop 8).length))) := by
  constructor
  · simp only [Message.ParsePiece, MsgPiece]
    split_ifs with h1 h2 h3 h4 h5
    · exact iff_of_true rfl (Or.inl h1)
    · exact iff_of_true rfl (Or.inr (Or.inl h2))
    · exact iff_of_true rfl (Or.inr (Or.inr (Or.inl h3)))
    · exact iff_of_true rfl (Or.inr (Or.inr (Or.inr (Or.inl h4))))
    · exact iff_of_true rfl (Or.inr (Or.inr (Or.inr (Or.inr h5))))
    · refine iff_of_false (fun hc => nomatch hc) ?_
      rintro (h | h | h | h | h)
      · exact h1 h
      · exact h2 h
      · exact h3 h
      · exact h4 (by omega)
      · exact h5 (by omega)
  · intro h1 h2 h3 h4 h5
    unfold Message.ParsePiece MsgPiece
    rw [if_neg (by omega), if_neg (by omega), if_neg (by simp [h3]),
      if_neg (by omega), if_neg (by omega)]
    rw [goCopy_drop_of_le _ _ _ h5, List.append_assoc]

/-- Witness for C2 at a concrete accepted input: a PIECE message for index 1
carrying 2 bytes at offset 2 of a 5-byte buffer. -/
theorem parsePiece_spec_witness :
    (Message.ParsePiece ⟨7, [0, 0, 0, 1, 0, 0, 0, 2, 9, 8]⟩ 1 [5, 5, 5, 5, 5]).isOk ≠ false ∧
    Message.ParsePiece ⟨7, [0, 0, 0, 1, 0, 0, 0, 2, 9, 8]⟩ 1 [5, 5, 5, 5, 5] =
      .ok (2, [5, 5, 9, 8, 5]) := by
  have h := parsePiece_spec ⟨7, [0, 0, 0, 1, 0, 0, 0, 2, 9, 8]⟩ 1 [5, 5, 5, 5, 5]
  refine ⟨fun hfalse => absurd (h.1.mp hfalse) (by decide), ?_⟩
  exact (h.2 (by decide) (by decide) (by decide) (by decide) (by decide)).trans (by rfl)

/-- `Serialize` of a message whose `uint32` frame length does not wrap:
the frame is the 4-byte length, the id byte, and the full payload. -/
theorem serializeMsg_some (mm : Message) (hID : mm.ID < 256)
    (hlen : mm.Payload.length + 1 < 4294967292) :
    serializeMsg (some mm) = some (natToBE4 (mm.Payload.length + 1) ++ mm.ID :: mm.Payload) := by
  have hw : (mm.Payload.length + 1) % 4294967296 = mm.Payload.length + 1 :=
    Nat.mod_eq_of_lt (by omega)
  simp only [serializeMsg, hw]
  rw [if_neg (by omega)]
  simp only [Nat.add_sub_cancel, List.take_length, Nat.mod_eq_of_lt hID]
  rfl

/-- Reading a well-formed frame from the front of a stream recovers the id
byte and payload and leaves the rest of the stream untouched. -/
theorem readMsgStream_frame (id0 : Nat) (payload rest : List Nat)
    (hlen : payload.length + 1 < 4294967296) :
    readMsgStream (natToBE4 (payload.length + 1) ++ id0 :: payload ++ rest) =
      .ok (some ⟨id0, payload⟩, rest) := by
  simp only [natToBE4, List.cons_append, List.nil_append, readMsgStream]
  have hbe : beBytes4 [(payload.length + 1) / 16777216 % 256,
      (payload.length + 1) / 65536 % 256, (payload.length + 1) / 256 % 256,
      (payload.length + 1) % 256] = payload.length + 1 := by
    simp only [beBytes4]
    omega
  rw [hbe, if_neg (by omega),
    if_neg (by simp only [List.length_cons, List.length_append]; omega),
    List.take_succ_cons, List.take_left]
  simp only [List.drop_succ_cons, List.drop_left, List.drop_zero, List.headD_cons]

/-- Reading a frame whose big-endian length field is zero yields the
keep-alive sentinel and consumes exactly four bytes. -/
theorem readMsgStream_keepalive (rest : List Nat) :
    readMsgStream (0 :: 0 :: 0 :: 0 :: rest) = .ok (none, rest) := by
  simp only [readMsgStream]
  rw [if_pos (show beBytes4 [0, 0, 0, 0] = 0 from rfl)]

/-- C4 (amended): reading back the serialization of a message `M` with id
byte below 256 and payload short enough that the `uint32` frame length does
not wrap (`len payload + 1 < 2^32 - 4`) yields `M` again with the rest of
the stream untouched; serializing the keep-alive (`nil`) yields exactly the
four bytes `00 00 00 00`; and reading a frame whose 4-byte big-endian length
field is 0 returns the keep-alive sentinel with no error. -/
theorem message_framing_roundtrip (mm : Message) (frame rest : List Nat)
    (hID : mm.ID < 256) (hlen : mm.Payload.length + 1 < 4294967292)
    (hser : serializeMsg (some mm) = some frame) :
    readMsgStream (frame ++ rest) = .ok (some mm, rest) ∧
    serializeMsg none = some [0, 0, 0, 0] ∧
    readMsgStream (0 :: 0 :: 0 :: 0 :: rest) = .ok (none, rest) := by
  have hf := Option.some.inj ((serializeMsg_some mm hID hlen).symm.trans hser)
  refine ⟨?_, rfl, readMsgStream_keepalive rest⟩
  rw [← hf, List.append_assoc, List.cons_append]
  exact readMsgStream_frame mm.ID mm.Payload rest (by omega)

/-- `Serialize` on a payload of `2^32` bytes: the `uint32` frame length
wraps to 1 and the whole payload is dropped from the frame. -/
theorem serializeMsg_wrap (p : List Nat) (hp : p.length = 4294967296) :
    serializeMsg (some ⟨6, p⟩) = some [0, 0, 0, 1, 6] := by
  have hm : (4294967296 + 1) % 4294967296 = 1 := by norm_num
  simp only [serializeMsg, hp, hm]
  rw [if_neg (by omega)]
  norm_num [natToBE4]

/-- C4 fails as literally stated ("for every message M, any payload"): for a
payload of `2^32` bytes the `uint32` frame length wraps to 1, the code
serializes a 5-byte frame that drops the whole payload, and reading it back
yields a message with an empty payload, not `M`. -/
theorem message_framing_counterexample :
    serializeMsg (some ⟨6, List.replicate 4294967296 0⟩) = some [0, 0, 0, 1, 6] ∧
    readMsgStream [0, 0, 0, 1, 6] = .ok (some ⟨6, []⟩, []) ∧
    (⟨6, []⟩ : Message).Payload.length = 0 ∧
    (⟨6, List.replicate 4294967296 0⟩ : Message).Payload.length = 4294967296 :=
  ⟨serializeMsg_wrap _ (List.length_replicate 4294967296 0), rfl, rfl,
    List.length_replicate 4294967296 0⟩

/-- Witness for C4 at a concrete input: the message with id 7 and payload
`[1, 2, 3]`. -/
theorem message_framing_witness :
    (7 : Nat) < 256 ∧
    (readMsgStream ([0, 0, 0, 4, 7, 1, 2, 3] ++ [9]) = .ok (some ⟨7, [1, 2, 3]⟩, [9]) ∧
      serializeMsg none = some [0, 0, 0, 0] ∧
      readMsgStream (0 :: 0 :: 0 :: 0 :: [9]) = .ok (none, [9])) :=
  ⟨by decide, message_framing_roundtrip ⟨7, [1, 2, 3]⟩ [0, 0, 0, 4, 7, 1, 2, 3] [9]
    (by decide) (by decide) rfl⟩

/-- `handshake.Handshake` (handshake.go lines 9-13). `InfoHash` and `PeerID`
model Go `[20]byte` values, whose length is 20 by type; theorems carry that
as an explicit hypothesis. -/
structure Handshake where
  Pstr : List Nat
  InfoHash : List Nat
  PeerID : List Nat
  deriving DecidableEq, Repr

/-- The bytes of the standard pstr `"BitTorrent protocol"` (19 ASCII bytes). -/
def pstrStandard : List Nat :=
  [66, 105, 116, 84, 111, 114, 114, 101, 110, 116, 32, 112, 114, 111, 116, 111, 99, 111, 108]

/-- `handshake.New` (handshake.go lines 16-22). -/
def Handshake.New (infoHash peerID : List Nat) : Handshake :=
  ⟨pstrStandard, infoHash, peerID⟩

/-- `Handshake.Serialize` (handshake.go lines 25-34): a buffer of
`len pstr + 49` bytes: the pstrlen byte (Go `byte(len(h.Pstr))`, hence
`% 256`), the pstr, 8 reserved zero bytes, the info hash, the peer id.
The four `copy` calls exactly fill the buffer because the Go array types fix
the hash and id at 20 bytes each. -/
def Handshake.Serialize (h : Handshake) : List Nat :=
  h.Pstr.length % 256 :: (h.Pstr ++ List.replicate 8 0 ++ h.InfoHash ++ h.PeerID)

/-- `handshake.Read` (handshake.go lines 37-67) over a byte stream: read the
pstrlen byte, reject 0, then read `48 + pstrlen` bytes and split them into
pstr, 8 reserved bytes (ignored), info hash, and peer id.  `io.ReadFull`
failure (stream too short) is an error. -/
def readHandshake : List Nat → Except String (Handshake × List Nat)
  | [] => .error "EOF"
  | lengthPstr :: t =>
    if lengthPstr = 0 then .error "lengthPstr cannot be 0"
    else if t.length < 48 + lengthPstr then .error "EOF"
    else
      let hb := t.take (48 + lengthPstr)
      .ok (⟨hb.take lengthPstr, (hb.drop (lengthPstr + 8)).take 20,
        (hb.drop (lengthPstr + 28)).take 20⟩, t.drop (48 + lengthPstr))

/-- Reading back a serialized handshake from the front of a stream recovers
the handshake and leaves the rest of the stream. -/
theorem readHandshake_serialize (h : Handshake) (rest : List Nat)
    (hp : 0 < h.Pstr.length) (hp2 : h.Pstr.length < 256)
    (hi : h.InfoHash.length = 20) (hk : h.PeerID.length = 20) :
    readHandshake (h.Serialize ++ rest) = .ok (h, rest) := by
  have hmod : h.Pstr.length % 256 = h.Pstr.length := Nat.mod_eq_of_lt hp2
  have hB : (h.Pstr ++ List.replicate 8 0 ++ h.InfoHash ++ h.PeerID).length =
      48 + h.Pstr.length := by
    simp only [List.length_append, List.length_replicate, hi, hk]
    omega
  have h1 : (h.Pstr ++ List.replicate 8 0 ++ h.InfoHash ++ h.PeerID).take h.Pstr.length =
      h.Pstr := by
    simp only [List.append_assoc]
    exact List.take_left _ _
  have h2 : (h.Pstr ++ List.replicate 8 0 ++ h.InfoHash ++ h.PeerID).drop
      (h.Pstr.length + 8) = h.InfoHash ++ h.PeerID := by
    have he : h.Pstr ++ List.replicate 8 0 ++ h.InfoHash ++ h.PeerID =
        (h.Pstr ++ List.replicate 8 0) ++ (h.InfoHash ++ h.PeerID) := by
      simp only [List.append_assoc]
    rw [he]
    exact List.drop_left' (by simp only [List.length_append, List.length_replicate])
  have h3 : (h.InfoHash ++ h.PeerID).take 20 = h.InfoHash := List.take_left' hi
  have h4 : (h.Pstr ++ List.replicate 8 0 ++ h.InfoHash ++ h.PeerID).drop
      (h.Pstr.length + 28) = h.PeerID := by
    refine List.drop_left' ?_
    simp only [List.length_append, List.length_replicate, hi]
  have h5 : h.PeerID.take 20 = h.PeerID := List.take_of_length_le (by omega)
  have h6 : ((h.Pstr ++ List.replicate 8 0 ++ h.InfoHash ++ h.PeerID) ++ rest).drop
      (48 + h.Pstr.length) = rest := List.drop_left' hB
  simp only [Handshake.Serialize, List.cons_append, readHandshake, hmod]
  rw [if_neg (by omega), if_neg (by rw [List.length_append, hB]; omega)]
  rw [List.take_left' hB]
  rw [h1]
  rw [h2]
  rw [h3]
  rw [h4]
  rw [h5]
  rw [h6]

/-- C5: for every handshake built by `New` (standard pstr) with arbitrary
20-byte info hash and peer id, reading back the serialization returns an
equal handshake; the serialization is exactly 68 bytes and begins with the
byte 0x13 (= 19) followed by the 19 ASCII bytes of "BitTorrent protocol";
and reading a handshake whose first byte (pstrlen) is 0 fails with an
error. -/
theorem handshake_roundtrip (infoHash peerID rest s : List Nat)
    (hi : infoHash.length = 20) (hk : peerID.length = 20) :
    readHandshake ((Handshake.New infoHash peerID).Serialize ++ rest) =
      .ok (Handshake.New infoHash peerID, rest) ∧
    (Handshake.New infoHash peerID).Serialize.length = 68 ∧
    (Handshake.New infoHash peerID).Serialize.take 20 = 19 :: pstrStandard ∧
    readHandshake (0 :: s) = .error "lengthPstr cannot be 0" := by
  refine ⟨readHandshake_serialize _ rest (by simp only [Handshake.New]; decide)
    (by simp only [Handshake.New]; decide) hi hk, ?_, ?_, ?_⟩
  · simp only [Handshake.New, Handshake.Serialize, List.length_cons, List.length_append,
      List.length_replicate, hi, hk]
    decide
  · simp only [Handshake.New, Handshake.Serialize]
    rw [show (pstrStandard.length % 256 : Nat) = 19 from rfl, List.take_succ_cons]
    rw [List.append_assoc, List.append_assoc]
    rw [show (19 : Nat) = pstrStandard.length from rfl, List.take_left]
  · simp [readHandshake]

/-- Witness for C5 at concrete 20-byte info hash and peer id values. -/
theorem handshake_roundtrip_witness :
    (List.replicate 20 (1 : Nat)).length = 20 ∧
    (readHandshake ((Handshake.New (List.replicate 20 1) (List.replicate 20 2)).Serialize
        ++ [7]) = .ok (Handshake.New (List.replicate 20 1) (List.replicate 20 2), [7]) ∧
      (Handshake.New (List.replicate 20 1) (List.replicate 20 2)).Serialize.length = 68 ∧
      (Handshake.New (List.replicate 20 1) (List.replicate 20 2)).Serialize.take 20 =
        19 :: pstrStandard ∧
      readHandshake (0 :: [3]) = .error "lengthPstr cannot be 0") :=
  ⟨by decide, handshake_roundtrip (List.replicate 20 1) (List.replicate 20 2) [7] [3]
    (by decide) (by decide)⟩

/-- `client.Client` (part_002 lines 16-23): the fields used by the p2p
layer. -/
structure Client where
  Choked : Bool
  Bitfield : List Nat
  deriving DecidableEq, Repr

/-- `client.completeHandshake` (part_002 lines 25-45) over the inbound byte
stream.  The outbound write of `handshake.New(infoHash, peerID).Serialize()`
does not consume inbound bytes; then the peer handshake is read and its info
hash must equal the expected one (`bytes.Equal`). -/
def completeHandshake (infoHash : List Nat) (stream : List Nat) :
    Except String (Handshake × List Nat) :=
  match readHandshake stream with
  | .error e => .error e
  | .ok (res, rest) =>
    if res.InfoHash = infoHash then .ok (res, rest)
    else .error "info hash mismatch"

/-- `client.receiveBitfield` (part_002 lines 47-63): read one message and
require it to be a non-nil Bitfield message; return its payload. -/
def receiveBitfield (stream : List Nat) : Except String (List Nat × List Nat) :=
  match readMsgStream stream with
  | .error e => .error e
  | .ok (none, _) => .error "expected bitfield"
  | .ok (some m, rest) =>
    if m.ID ≠ MsgBitfield then .error "expected bitfield, got other id"
    else .ok (m.Payload, rest)

/-- `client.New` (part_002 lines 67-93) after a successful dial: run the
handshake then the bitfield receipt over the inbound stream; on either
failure the connection is closed (the Bool component is the closed flag);
on success build the client with `Choked := true` and the received
bitfield. -/
def clientNew (infoHash : List Nat) (stream : List Nat) : Except String Client × Bool :=
  match completeHandshake infoHash stream with
  | .error e => (.error e, true)
  | .ok (_, rest) =>
    match receiveBitfield rest with
    | .error e => (.error e, true)
    | .ok (bf, _) => (.ok ⟨true, bf⟩, false)

/-- C7: for an inbound stream consisting of a peer handshake followed by one
message frame, session setup returns an error and closes the connection if
the handshake's info hash differs from the expected one, or if the frame is
a keep-alive, or if its id is not Bitfield (5); on success it returns a
client whose `Choked` flag is true and whose `Bitfield` equals the payload
of that first Bitfield message, with the connection left open. -/
theorem clientNew_spec (infoHash : List Nat) (h' : Handshake) (m : Option Message)
    (frame rest : List Nat)
    (hp : 0 < h'.Pstr.length) (hp2 : h'.Pstr.length < 256)
    (hi : h'.InfoHash.length = 20) (hk : h'.PeerID.length = 20)
    (hser : serializeMsg m = some frame)
    (hm : ∀ mm, m = some mm → mm.ID < 256 ∧ mm.Payload.length + 1 < 4294967292) :
    (h'.InfoHash ≠ infoHash →
      clientNew infoHash (h'.Serialize ++ frame ++ rest) =
        (.error "info hash mismatch", true)) ∧
    (h'.InfoHash = infoHash → m = none →
      clientNew infoHash (h'.Serialize ++ frame ++ rest) =
        (.error "expected bitfield", true)) ∧
    (h'.InfoHash = infoHash → ∀ mm, m = some mm → mm.ID ≠ 5 →
      clientNew infoHash (h'.Serialize ++ frame ++ rest) =
        (.error "expected bitfield, got other id", true)) ∧
    (h'.InfoHash = infoHash → ∀ mm, m = some mm → mm.ID = 5 →
      clientNew infoHash (h'.Serialize ++ frame ++ rest) =
        (.ok ⟨true, mm.Payload⟩, false)) := by
  have hread : readHandshake (h'.Serialize ++ (frame ++ rest)) = .ok (h', frame ++ rest) :=
    readHandshake_serialize h' (frame ++ rest) hp hp2 hi hk
  have hstream : h'.Serialize ++ frame ++ rest = h'.Serialize ++ (frame ++ rest) :=
    List.append_assoc _ _ _
  have hmsg : readMsgStream (frame ++ rest) = .ok (m, rest) := by
    cases m with
    | none =>
      have hf : frame = [0, 0, 0, 0] := (Option.some.inj hser).symm
      rw [hf]
      exact readMsgStream_keepalive rest
    | some mm =>
      obtain ⟨hID, hlen⟩ := hm mm rfl
      have hf := Option.some.inj ((serializeMsg_some mm hID hlen).symm.trans hser)
      rw [← hf, List.append_assoc, List.cons_append]
      exact readMsgStream_frame mm.ID mm.Payload rest (by omega)
  refine ⟨?_, ?_, ?_, ?_⟩
  · intro hne
    rw [hstream]
    simp only [clientNew, completeHandshake, hread]
    rw [if_neg hne]
  · intro heq hnone
    subst hnone
    have hch : completeHandshake infoHash (h'.Serialize ++ (frame ++ rest)) =
        .ok (h', frame ++ rest) := by
      simp only [completeHandshake, hread]
      rw [if_pos heq]
    have hrb : receiveBitfield (frame ++ rest) = .error "expected bitfield" := by
      simp only [receiveBitfield, hmsg]
    rw [hstream]
    simp only [clientNew, hch, hrb]
  · intro heq mm hmm hne5
    subst hmm
    have hch : completeHandshake infoHash (h'.Serialize ++ (frame ++ rest)) =
        .ok (h', frame ++ rest) := by
      simp only [completeHandshake, hread]
      rw [if_pos heq]
    have hrb : receiveBitfield (frame ++ rest) =
        .error "expected bitfield, got other id" := by
      simp only [receiveBitfield, hmsg, MsgBitfield]
      rw [if_pos hne5]
    rw [hstream]
    simp only [clientNew, hch, hrb]
  · intro heq mm hmm h5
    subst hmm
    have hch : completeHandshake infoHash (h'.Serialize ++ (frame ++ rest)) =
        .ok (h', frame ++ rest) := by
      simp only [completeHandshake, hread]
      rw [if_pos heq]
    have hrb : receiveBitfield (frame ++ rest) = .ok (mm.Payload, rest) := by
      simp only [receiveBitfield, hmsg, MsgBitfield]
      rw [if_neg (by simp [h5])]
    rw [hstream]
    simp only [clientNew, hch, hrb]

/-- Witness for C7 at a concrete input: matching info hash and a Bitfield
message with payload `[255]`. -/
theorem clientNew_spec_witness :
    (Handshake.New (List.replicate 20 1) (List.replicate 20 2)).InfoHash =
      List.replicate 20 1 ∧
    clientNew (List.replicate 20 1)
      ((Handshake.New (List.replicate 20 1) (List.replicate 20 2)).Serialize ++
        [0, 0, 0, 2, 5, 255] ++ []) = (.ok ⟨true, [255]⟩, false) := by
  refine ⟨rfl, ?_⟩
  exact (clientNew_spec (List.replicate 20 1)
    (Handshake.New (List.replicate 20 1) (List.replicate 20 2)) (some ⟨5, [255]⟩)
    [0, 0, 0, 2, 5, 255] [] (by decide) (by decide) (by decide) (by decide) rfl
    (by rintro mm h; cases h; exact ⟨by decide, by decide⟩)).2.2.2 rfl ⟨5, [255]⟩ rfl rfl

/-- Modelled from the spec: the `bitfield` package is not under `src/`
(only its callers are).  Spec section 4.2: the bit for piece `i` is bit
`7 - i % 8` of byte `i / 8` (most significant bit first); `has_piece` is
false for out-of-range indices. -/
def hasPiece (bf : List Nat) (index : Nat) : Bool :=
  match bf[index / 8]? with
  | none => false
  | some b => b / 2 ^ (7 - index % 8) % 2 == 1

/-- Modelled from the spec: `set_piece` sets that bit and silently ignores
out-of-range indices (spec section 4.2). -/
def setPiece (bf : List Nat) (index : Nat) : List Nat :=
  match bf[index / 8]? with
  | none => bf
  | some b => bf.set (index / 8) (b ||| 2 ^ (7 - index % 8))

/-- `MaxBlockSize` (part_000 line 18). -/
def MaxBlockSize : Nat := 16384

/-- `MaxBacklog` (part_000 line 20); an `Int` like Go's untyped constant in
the `Int`-valued backlog comparison. -/
def MaxBacklog : Int := 5

/-- `p2p.pieceProgress` (part_000 lines 45-52) together with the mutable
session fields it reaches through `state.client` (`Choked`, `Bitfield`).
`backlog` is an `Int` because Go's `state.backlog--` can drive it below
zero on unsolicited Piece messages. -/
structure PieceProgress where
  index : Nat
  choked : Bool
  bitfield : List Nat
  buf : List Nat
  downloaded : Nat
  requested : Nat
  backlog : Int
  deriving DecidableEq, Repr

/-- `pieceProgress.readMessage` (part_000 lines 54-86) applied to one
already-read inbound message (`none` is the keep-alive). -/
def readMessageStep (st : PieceProgress) : Option Message → Except String PieceProgress
  | none => .ok st
  | some m =>
    if m.ID = MsgUnchoke then .ok { st with choked := false }
    else if m.ID = MsgChoke then .ok { st with choked := true }
    else if m.ID = MsgHave then
      match m.ParseHave with
      | .error e => .error e
      | .ok idx => .ok { st with bitfield := setPiece st.bitfield idx }
    else if m.ID = MsgPiece then
      match m.ParsePiece st.index st.buf with
      | .error e => .error e
      | .ok (n, buf2) =>
        .ok { st with
                buf := buf2, downloaded := st.downloaded + n,
                backlog := st.backlog - 1 }
    else .ok st

/-- One wire event during a piece download: a Request we sent
(index, begin, length), or an inbound message we processed. -/
inductive Event where
  | sent (index begin length : Nat)
  | received (msg : Option Message)
  deriving DecidableEq, Repr

/-- The request-sending loop of `attemptDownloadPiece` (part_000 lines
102-117): while `backlog < MaxBacklog && requested < pw.length`, send a
Request for the next block of `min(MaxBlockSize, pw.length - requested)`
bytes, increment the backlog and advance `requested`.  Returns the sent
events, the states after each send, and the final state.  `fuel` is only a
termination device: every iteration increments `backlog`, so the loop runs
at most `(MaxBacklog - backlog).toNat` times, and `sendRequests` below
passes exactly that; the guard itself is the Go condition. -/
def sendRequestsAux (plen : Nat) : Nat → PieceProgress →
    List Event × List PieceProgress × PieceProgress
  | 0, st => ([], [], st)
  | fuel + 1, st =>
    if st.backlog < MaxBacklog ∧ st.requested < plen then
      let blockSize := if plen - st.requested < MaxBlockSize then plen - st.requested
        else MaxBlockSize
      let st1 := { st with
                    backlog := st.backlog + 1,
                    requested := st.requested + blockSize }
      let r := sendRequestsAux plen fuel st1
      (.sent st.index st.requested blockSize :: r.1, st1 :: r.2.1, r.2.2)
    else ([], [], st)

/-- The inner `for` loop of `attemptDownloadPiece` (part_000 lines 103-116). -/
def sendRequests (plen : Nat) (st : PieceProgress) :
    List Event × List PieceProgress × PieceProgress :=
  sendRequestsAux plen (MaxBacklog - st.backlog).toNat st

/-- The main loop of `attemptDownloadPiece` (part_000 lines 100-123) over an
explicit list of inbound messages: while `downloaded < pw.length`, send
requests if unchoked, then read and dispatch one message; an exhausted
message list models a transport read error.  Returns the wire events, the
states reached (after each sent request and after each processed message),
and the result: the filled buffer, or the first error. -/
def attemptLoop (plen : Nat) : List (Option Message) → PieceProgress →
    List Event × List PieceProgress × Except String (List Nat)
  | [], st =>
    if st.downloaded < plen then
      let s := if st.choked = false then sendRequests plen st else ([], [], st)
      (s.1, s.2.1, .error "read error")
    else ([], [], .ok st.buf)
  | m :: restMsgs, st =>
    if st.downloaded < plen then
      let s := if st.choked = false then sendRequests plen st else ([], [], st)
      match readMessageStep s.2.2 m with
      | .error e => (s.1 ++ [.received m], s.2.1, .error e)
      | .ok st2 =>
        let r := attemptLoop plen restMsgs st2
        (s.1 ++ .received m :: r.1, s.2.1 ++ st2 :: r.2.1, r.2.2)
    else ([], [], .ok st.buf)

/-- `p2p.attemptDownloadPiece` (part_000 lines 88-126): fresh progress state
over a zeroed buffer of `pw.length` bytes, carrying the session's current
choked flag and bitfield, then the download loop. -/
def attemptDownloadPiece (pwIndex pwLength : Nat) (choked : Bool) (bf : List Nat)
    (msgs : List (Option Message)) :
    List Event × List PieceProgress × Except String (List Nat) :=
  attemptLoop pwLength msgs
    ⟨pwIndex, choked, bf, List.replicate pwLength 0, 0, 0, 0⟩

/-- The states a run of `attemptDownloadPiece` passes through: the initial
state followed by the state trace of the loop. -/
def reachableStates (pwIndex pwLength : Nat) (choked : Bool) (bf : List Nat)
    (msgs : List (Option Message)) : List PieceProgress :=
  ⟨pwIndex, choked, bf, List.replicate pwLength 0, 0, 0, 0⟩ ::
    (attemptDownloadPiece pwIndex pwLength choked bf msgs).2.1

/-- The session's choked flag after one inbound message is dispatched. -/
def updateChoked (choked : Bool) : Option Message → Bool
  | none => choked
  | some m =>
    if m.ID = MsgUnchoke then false
    else if m.ID = MsgChoke then true
    else choked

/-- Scanning a wire trace with the given initial choked flag: true iff no
Request is sent at a point where the flag is set — hence none between a
received Choke and the next received Unchoke. -/
def chokeDiscipline (choked : Bool) : List Event → Bool
  | [] => true
  | .sent _ _ _ :: evs => !choked && chokeDiscipline choked evs
  | .received m :: evs => chokeDiscipline (updateChoked choked m) evs

/-- The Requests of a wire trace, in order, ignoring interleaved reads:
(index, begin, length) triples. -/
def requestsOf : List Event → List (Nat × Nat × Nat)
  | [] => []
  | .sent i b l :: evs => (i, b, l) :: requestsOf evs
  | .received _ :: evs => requestsOf evs

/-- Decidable check that a request list is the greedy block tiling of an
initial segment of `[0, plen)` for piece `idx` starting at `start`: each
request begins exactly where the previous one ended, begins inside the
piece, and asks for `min(MaxBlockSize, plen - begin)` bytes (written in the
Go `if` form).  In particular begins are strictly increasing, blocks are
gapless and non-overlapping, every length is at most `MaxBlockSize`, and a
short request forces the next begin to `plen`, so only the last request can
be short. -/
def checkRequests (plen idx : Nat) : Nat → List (Nat × Nat × Nat) → Bool
  | _, [] => true
  | start, (i, b, l) :: rs =>
    (i == idx) && (b == start) && decide (start < plen) &&
      (l == if plen - start < MaxBlockSize then plen - start else MaxBlockSize) &&
      checkRequests plen idx (b + l) rs

/-- The offset where a request tiling ends. -/
def tileEnd : Nat → List (Nat × Nat × Nat) → Nat
  | start, [] => start
  | _, (_, b, l) :: rs => tileEnd (b + l) rs

theorem requestsOf_append (xs ys : List Event) :
    requestsOf (xs ++ ys) = requestsOf xs ++ requestsOf ys := by
  induction xs with
  | nil => rfl
  | cons x xs ih => cases x <;> simp [requestsOf, ih]

theorem checkRequests_append (plen idx s : Nat) (xs ys : List (Nat × Nat × Nat)) :
    checkRequests plen idx s (xs ++ ys) =
      (checkRequests plen idx s xs && checkRequests plen idx (tileEnd s xs) ys) := by
  induction xs generalizing s with
  | nil => simp [checkRequests, tileEnd]
  | cons x xs ih =>
    obtain ⟨i, b, l⟩ := x
    simp [checkRequests, tileEnd, ih, Bool.and_assoc]

/-- The send loop only changes `backlog` and `requested`; starting within
the backlog cap it stays within it, and `requested` never passes `plen`. -/
theorem sendRequestsAux_final (plen fuel : Nat) (st : PieceProgress) :
    ∃ b r, (sendRequestsAux plen fuel st).2.2 =
        { st with backlog := b, requested := r } ∧
      (st.backlog ≤ MaxBacklog → b ≤ MaxBacklog) ∧
      (st.requested ≤ plen → r ≤ plen) := by
  induction fuel generalizing st with
  | zero => exact ⟨st.backlog, st.requested, rfl, fun h => h, fun h => h⟩
  | succ fuel ih =>
    obtain ⟨i0, c0, bf0, buf0, d0, rq0, bl0⟩ := st
    by_cases hg : bl0 < MaxBacklog ∧ rq0 < plen
    · obtain ⟨b, r, heq, hb, hr⟩ := ih ⟨i0, c0, bf0, buf0, d0,
        rq0 + (if plen - rq0 < MaxBlockSize then plen - rq0 else MaxBlockSize), bl0 + 1⟩
      refine ⟨b, r, ?_, ?_, ?_⟩
      · simp only [sendRequestsAux]
        rw [if_pos hg]
        exact heq
      · intro _
        exact hb (by simp only [MaxBacklog] at *; omega)
      · intro _
        refine hr ?_
        show rq0 + (if plen - rq0 < MaxBlockSize then plen - rq0 else MaxBlockSize) ≤ plen
        by_cases hbs : plen - rq0 < MaxBlockSize
        · rw [if_pos hbs]
          omega
        · rw [if_neg hbs]
          simp only [MaxBlockSize] at *
          omega
    · refine ⟨bl0, rq0, ?_, fun h => h, fun h => h⟩
      simp only [sendRequestsAux]
      rw [if_neg hg]

/-- Every state recorded by the send loop has `backlog ≤ MaxBacklog`. -/
theorem sendRequestsAux_states (plen fuel : Nat) (st : PieceProgress) :
    ∀ s ∈ (sendRequestsAux plen fuel st).2.1, s.backlog ≤ MaxBacklog := by
  induction fuel generalizing st with
  | zero => simp [sendRequestsAux]
  | succ fuel ih =>
    obtain ⟨i0, c0, bf0, buf0, d0, rq0, bl0⟩ := st
    by_cases hg : bl0 < MaxBacklog ∧ rq0 < plen
    · simp only [sendRequestsAux]
      rw [if_pos hg]
      intro s hs
      simp only [List.mem_cons] at hs
      rcases hs with rfl | hs
      · show bl0 + 1 ≤ MaxBacklog
        simp only [MaxBacklog] at *
        omega
      · exact ih _ s hs
    · simp only [sendRequestsAux]
      rw [if_neg hg]
      intro s hs
      simp at hs

/-- The send loop emits only `sent` events, so it is transparent to the
choke discipline when the flag is down (and it only runs then). -/
theorem sendRequestsAux_chokeDiscipline (plen fuel : Nat) (st : PieceProgress)
    (evs2 : List Event) :
    chokeDiscipline false ((sendRequestsAux plen fuel st).1 ++ evs2) =
      chokeDiscipline false evs2 := by
  induction fuel generalizing st with
  | zero => simp [sendRequestsAux]
  | succ fuel ih =>
    by_cases hg : st.backlog < MaxBacklog ∧ st.requested < plen
    · simp only [sendRequestsAux]
      rw [if_pos hg]
      simp only [List.cons_append, chokeDiscipline, Bool.not_false, Bool.true_and]
      exact ih _
    · simp only [sendRequestsAux]
      rw [if_neg hg]
      simp

/-- The requests of one send burst tile `[requested, final requested)`
greedily. -/
theorem sendRequestsAux_check (plen fuel : Nat) (st : PieceProgress) :
    checkRequests plen st.index st.requested
      (requestsOf (sendRequestsAux plen fuel st).1) = true ∧
    tileEnd st.requested (requestsOf (sendRequestsAux plen fuel st).1) =
      (sendRequestsAux plen fuel st).2.2.requested := by
  induction fuel generalizing st with
  | zero => simp [sendRequestsAux, requestsOf, checkRequests, tileEnd]
  | succ fuel ih =>
    obtain ⟨i0, c0, bf0, buf0, d0, rq0, bl0⟩ := st
    by_cases hg : bl0 < MaxBacklog ∧ rq0 < plen
    · obtain ⟨h1, h2⟩ := ih ⟨i0, c0, bf0, buf0, d0,
        rq0 + (if plen - rq0 < MaxBlockSize then plen - rq0 else MaxBlockSize), bl0 + 1⟩
      simp only [sendRequestsAux]
      rw [if_pos hg]
      simp only [requestsOf, checkRequests, tileEnd, beq_self_eq_true, Bool.true_and,
        decide_eq_true hg.2]
      exact ⟨h1, h2⟩
    · simp only [sendRequestsAux]
      rw [if_neg hg]
      simp [requestsOf, checkRequests, tileEnd]

/-- A successful message dispatch updates the choked flag exactly as
`updateChoked` says, never increases the backlog, and leaves `requested`
and the piece index unchanged. -/
theorem readMessageStep_ok (st : PieceProgress) (m : Option Message)
    (st2 : PieceProgress) (h : readMessageStep st m = .ok st2) :
    st2.choked = updateChoked st.choked m ∧ st2.backlog ≤ st.backlog ∧
    st2.requested = st.requested ∧ st2.index = st.index := by
  cases m with
  | none =>
    simp only [readMessageStep, Except.ok.injEq] at h
    subst h
    simp [updateChoked]
  | some mm =>
    simp only [readMessageStep] at h
    split_ifs at h with h1 h2 h3 h4
    · simp only [Except.ok.injEq] at h
      subst h
      simp [updateChoked, h1]
    · simp only [Except.ok.injEq] at h
      subst h
      simp [updateChoked, h1, h2, MsgChoke, MsgUnchoke]
    · cases hph : mm.ParseHave with
      | error e => rw [hph] at h; cases h
      | ok idx =>
        rw [hph] at h
        simp only [Except.ok.injEq] at h
        subst h
        simp [updateChoked, h1, h2]
    · cases hpp : mm.ParsePiece st.index st.buf with
      | error e => rw [hpp] at h; cases h
      | ok p =>
        rw [hpp] at h
        simp only [Except.ok.injEq] at h
        subst h
        constructor
        · simp [updateChoked, h1, h2]
        · constructor
          · show st.backlog - 1 ≤ st.backlog
            omega
          · exact ⟨rfl, rfl⟩
    · simp only [Except.ok.injEq] at h
      subst h
      simp [updateChoked, h1, h2]

theorem sendRequests_final (plen : Nat) (st : PieceProgress) :
    ∃ b r, (sendRequests plen st).2.2 = { st with backlog := b, requested := r } ∧
      (st.backlog ≤ MaxBacklog → b ≤ MaxBacklog) ∧
      (st.requested ≤ plen → r ≤ plen) :=
  sendRequestsAux_final plen _ st

theorem sendRequests_states (plen : Nat) (st : PieceProgress) :
    ∀ s ∈ (sendRequests plen st).2.1, s.backlog ≤ MaxBacklog :=
  sendRequestsAux_states plen _ st

theorem sendRequests_chokeDiscipline (plen : Nat) (st : PieceProgress)
    (evs2 : List Event) :
    chokeDiscipline false ((sendRequests plen st).1 ++ evs2) =
      chokeDiscipline false evs2 :=
  sendRequestsAux_chokeDiscipline plen _ st evs2

theorem sendRequests_check (plen : Nat) (st : PieceProgress) :
    checkRequests plen st.index st.requested
      (requestsOf (sendRequests plen st).1) = true ∧
    tileEnd st.requested (requestsOf (sendRequests plen st).1) =
      (sendRequests plen st).2.2.requested :=
  sendRequestsAux_check plen _ st

/-- Backlog-cap and choke-discipline invariant of the download loop: from
any state within the backlog cap, every state in the trace stays within it,
and the wire trace respects the choke discipline for the entry flag. -/
theorem attemptLoop_backlog_choke (plen : Nat) (msgs : List (Option Message))
    (st : PieceProgress) (hb : st.backlog ≤ MaxBacklog) :
    (∀ s ∈ (attemptLoop plen msgs st).2.1, s.backlog ≤ MaxBacklog) ∧
    chokeDiscipline st.choked (attemptLoop plen msgs st).1 = true := by
  induction msgs generalizing st with
  | nil =>
    by_cases hd : st.downloaded < plen
    · simp only [attemptLoop, if_pos hd]
      by_cases hc : st.choked = false
      · rw [if_pos hc, hc]
        refine ⟨fun s hs => sendRequests_states plen st s hs, ?_⟩
        have h := sendRequests_chokeDiscipline plen st []
        rw [List.append_nil] at h
        rw [h]
        rfl
      · rw [if_neg hc]
        exact ⟨fun s hs => by simp at hs, rfl⟩
    · simp only [attemptLoop, if_neg hd]
      exact ⟨fun s hs => by simp at hs, rfl⟩
  | cons m restMsgs ih =>
    by_cases hd : st.downloaded < plen
    · simp only [attemptLoop, if_pos hd]
      by_cases hc : st.choked = false
      · rw [if_pos hc]
        cases hrm : readMessageStep (sendRequests plen st).2.2 m with
        | error e =>
          simp only [hrm]
          refine ⟨fun s hs => sendRequests_states plen st s hs, ?_⟩
          rw [hc, sendRequests_chokeDiscipline]
          rfl
        | ok st2 =>
          simp only [hrm]
          obtain ⟨b, r, hfin, hbb, _⟩ := sendRequests_final plen st
          have hst2 := readMessageStep_ok _ m st2 hrm
          have h1 := hst2.2.1
          rw [hfin] at h1
          have h1b : st2.backlog ≤ b := h1
          have hb2 : st2.backlog ≤ MaxBacklog := le_trans h1b (hbb hb)
          obtain ⟨hsts, hdis⟩ := ih st2 hb2
          constructor
          · intro s hs
            rw [List.mem_append] at hs
            rcases hs with hs | hs
            · exact sendRequests_states plen st s hs
            · rcases List.mem_cons.mp hs with rfl | hs
              · exact hb2
              · exact hsts s hs
          · rw [hc, sendRequests_chokeDiscipline]
            show chokeDiscipline (updateChoked false m)
              (attemptLoop plen restMsgs st2).1 = true
            have hch := hst2.1
            rw [hfin] at hch
            have hch2 : st2.choked = updateChoked st.choked m := hch
            rw [hc] at hch2
            rw [← hch2]
            exact hdis
      · rw [if_neg hc]
        cases hrm : readMessageStep st m with
        | error e =>
          simp only [hrm]
          refine ⟨fun s hs => by simp at hs, ?_⟩
          simp only [List.nil_append]
          rfl
        | ok st2 =>
          simp only [hrm]
          have hst2 := readMessageStep_ok st m st2 hrm
          have hb2 : st2.backlog ≤ MaxBacklog := le_trans hst2.2.1 hb
          obtain ⟨hsts, hdis⟩ := ih st2 hb2
          constructor
          · intro s hs
            simp only [List.nil_append, List.mem_cons] at hs
            rcases hs with rfl | hs
            · exact hb2
            · exact hsts s hs
          · simp only [List.nil_append]
            show chokeDiscipline (updateChoked st.choked m)
              (attemptLoop plen restMsgs st2).1 = true
            rw [← hst2.1]
            exact hdis
    · simp only [attemptLoop, if_neg hd]
      exact ⟨fun s hs => by simp at hs, rfl⟩

/-- A request list passing `checkRequests` from a start inside the piece
ends at or before `plen`. -/
theorem checkRequests_tileEnd_le (plen idx : Nat) :
    ∀ (rs : List (Nat × Nat × Nat)) (s : Nat), checkRequests plen idx s rs = true →
      s ≤ plen → tileEnd s rs ≤ plen := by
  intro rs
  induction rs with
  | nil =>
    intro s _ hs
    simpa [tileEnd] using hs
  | cons x rs ih =>
    obtain ⟨i, b, l⟩ := x
    intro s hch hs
    simp only [checkRequests, Bool.and_eq_true, beq_iff_eq, decide_eq_true_eq] at hch
    obtain ⟨⟨⟨⟨hi, hb⟩, hlt⟩, hl⟩, hrest⟩ := hch
    subst hb
    simp only [tileEnd]
    refine ih (b + l) hrest ?_
    subst hl
    by_cases hbs : plen - b < MaxBlockSize
    · rw [if_pos hbs]
      omega
    · rw [if_neg hbs]
      simp only [MaxBlockSize] at *
      omega

/-- The Requests emitted by the download loop, in order, greedily tile an
initial segment of `[0, plen)` starting from the entry `requested` offset. -/
theorem attemptLoop_requests (plen : Nat) (msgs : List (Option Message))
    (st : PieceProgress) (hr : st.requested ≤ plen) :
    checkRequests plen st.index st.requested
      (requestsOf (attemptLoop plen msgs st).1) = true := by
  induction msgs generalizing st with
  | nil =>
    by_cases hd : st.downloaded < plen
    · simp only [attemptLoop, if_pos hd]
      by_cases hc : st.choked = false
      · rw [if_pos hc]
        exact (sendRequests_check plen st).1
      · rw [if_neg hc]
        rfl
    · simp only [attemptLoop, if_neg hd]
      rfl
  | cons m restMsgs ih =>
    by_cases hd : st.downloaded < plen
    · simp only [attemptLoop, if_pos hd]
      by_cases hc : st.choked = false
      · rw [if_pos hc]
        cases hrm : readMessageStep (sendRequests plen st).2.2 m with
        | error e =>
          simp only [hrm]
          rw [requestsOf_append]
          have hone : requestsOf [Event.received m] = [] := rfl
          rw [hone, List.append_nil]
          exact (sendRequests_check plen st).1
        | ok st2 =>
          simp only [hrm]
          obtain ⟨b, r, hfin, _, hrr⟩ := sendRequests_final plen st
          have hst2 := readMessageStep_ok _ m st2 hrm
          have hreq : st2.requested = r := by
            have h := hst2.2.2.1
            rw [hfin] at h
            exact h
          have hidx : st2.index = st.index := by
            have h := hst2.2.2.2
            rw [hfin] at h
            exact h
          have hr2 : st2.requested ≤ plen := by
            rw [hreq]
            exact hrr hr
          have hih := ih st2 hr2
          rw [requestsOf_append]
          have hskip : requestsOf (Event.received m :: (attemptLoop plen restMsgs st2).1) =
              requestsOf (attemptLoop plen restMsgs st2).1 := rfl
          rw [hskip, checkRequests_append, (sendRequests_check plen st).1, Bool.true_and]
          have hte : tileEnd st.requested (requestsOf (sendRequests plen st).1) = r := by
            rw [(sendRequests_check plen st).2, hfin]
          rw [hte, ← hidx, ← hreq]
          exact hih
      · rw [if_neg hc]
        cases hrm : readMessageStep st m with
        | error e =>
          simp only [hrm]
          rfl
        | ok st2 =>
          simp only [hrm]
          have hst2 := readMessageStep_ok st m st2 hrm
          have hih := ih st2 (by rw [hst2.2.2.1]; exact hr)
          simp only [List.nil_append]
          have hskip : requestsOf (Event.received m :: (attemptLoop plen restMsgs st2).1) =
              requestsOf (attemptLoop plen restMsgs st2).1 := rfl
          rw [hskip, ← hst2.2.2.2, ← hst2.2.2.1]
          exact hih
    · simp only [attemptLoop, if_neg hd]
      rfl

/-- C3: in every state reachable during a single `attemptDownloadPiece` run
— for any inbound message sequence, initial choked flag, bitfield, and any
`pw.length > 0` — the backlog counter never exceeds 5; and the wire trace
obeys the choke discipline: no Request is sent while the session's Choked
flag is true, so after a Choke message no Request is sent until an Unchoke
message arrives. -/
theorem backlog_cap_choke_discipline (pwIndex pwLength : Nat) (choked : Bool)
    (bf : List Nat) (msgs : List (Option Message)) (hL : 0 < pwLength) :
    (∀ s ∈ reachableStates pwIndex pwLength choked bf msgs, s.backlog ≤ 5) ∧
    chokeDiscipline choked
      (attemptDownloadPiece pwIndex pwLength choked bf msgs).1 = true := by
  have h := attemptLoop_backlog_choke pwLength msgs
    ⟨pwIndex, choked, bf, List.replicate pwLength 0, 0, 0, 0⟩
    (show (0 : Int) ≤ MaxBacklog by norm_num [MaxBacklog])
  refine ⟨?_, h.2⟩
  intro s hs
  rcases List.mem_cons.mp hs with rfl | hs
  · show (0 : Int) ≤ 5
    norm_num
  · exact h.1 s hs

/-- Witness for C3: a 3-byte piece delivered in one block by an unchoked
peer. -/
theorem backlog_cap_witness :
    0 < 3 ∧
    ((∀ s ∈ reachableStates 0 3 false [] [some ⟨7, [0, 0, 0, 0, 0, 0, 0, 0, 9, 9, 9]⟩],
        s.backlog ≤ 5) ∧
      chokeDiscipline false
        (attemptDownloadPiece 0 3 false [] [some ⟨7, [0, 0, 0, 0, 0, 0, 0, 0, 9, 9, 9]⟩]).1 =
        true) :=
  ⟨by decide, backlog_cap_choke_discipline 0 3 false []
    [some ⟨7, [0, 0, 0, 0, 0, 0, 0, 0, 9, 9, 9]⟩] (by decide)⟩

/-- C6 (amended): during `attemptDownloadPiece` for a piece of length
`L > 0`, the Requests sent, in order, greedily tile an initial segment of
`[0, L)`: the first begins at 0, each next begin is the previous begin plus
the previous length (so begins are strictly increasing and the blocks are
gapless and non-overlapping), every Request asks for exactly
`min(MaxBlockSize, L - begin) ≤ 16384` bytes — so only the last Request can
be shorter than 16384 — and the tiled segment ends at or before `L`.  (The
claim as stated additionally requires the Requests to cover all of `[0, L)`;
`requests_tile_counterexample` refutes that.) -/
theorem requests_tile_initial_segment (pwIndex pwLength : Nat) (choked : Bool)
    (bf : List Nat) (msgs : List (Option Message)) (hL : 0 < pwLength) :
    checkRequests pwLength pwIndex 0
      (requestsOf (attemptDownloadPiece pwIndex pwLength choked bf msgs).1) = true ∧
    tileEnd 0 (requestsOf (attemptDownloadPiece pwIndex pwLength choked bf msgs).1)
      ≤ pwLength := by
  have h := attemptLoop_requests pwLength msgs
    ⟨pwIndex, choked, bf, List.replicate pwLength 0, 0, 0, 0⟩ (Nat.zero_le _)
  exact ⟨h, checkRequests_tileEnd_le pwLength pwIndex _ 0 h (Nat.zero_le _)⟩

/-- Witness for C6 (amended): the 3-byte piece run sends the single Request
`(0, 0, 3)`. -/
theorem requests_tile_witness :
    0 < 3 ∧
    (checkRequests 3 0 0
        (requestsOf (attemptDownloadPiece 0 3 false []
          [some ⟨7, [0, 0, 0, 0, 0, 0, 0, 0, 9, 9, 9]⟩]).1) = true ∧
      tileEnd 0 (requestsOf (attemptDownloadPiece 0 3 false []
        [some ⟨7, [0, 0, 0, 0, 0, 0, 0, 0, 9, 9, 9]⟩]).1) ≤ 3) :=
  ⟨by decide, requests_tile_initial_segment 0 3 false []
    [some ⟨7, [0, 0, 0, 0, 0, 0, 0, 0, 9, 9, 9]⟩] (by decide)⟩

/-- C6 as literally stated is false: this run of `attemptDownloadPiece` for
a piece of length 4 > 0 returns successfully — the still-choked session is
fed an unsolicited full-piece block — yet sends no Request at all, so the
Requests sent do not tile `[0, 4)`. -/
theorem requests_tile_counterexample :
    (attemptDownloadPiece 0 4 true [] [some ⟨7, [0, 0, 0, 0, 0, 0, 0, 0, 1, 1, 1, 1]⟩]).2.2 =
      .ok [1, 1, 1, 1] ∧
    requestsOf (attemptDownloadPiece 0 4 true []
      [some ⟨7, [0, 0, 0, 0, 0, 0, 0, 0, 1, 1, 1, 1]⟩]).1 = [] ∧
    tileEnd 0 (requestsOf (attemptDownloadPiece 0 4 true []
      [some ⟨7, [0, 0, 0, 0, 0, 0, 0, 0, 1, 1, 1, 1]⟩]).1) = 0 :=
  ⟨rfl, rfl, rfl⟩

/-- C10: `attemptDownloadPiece` ends its loop as soon as the byte count
reaches `pw.length`, never checking that the blocks cover distinct ranges:
delivering the same 4-byte block at offset 0 twice for an 8-byte piece makes
the function return successfully with a buffer whose bytes 4..8 were never
written by any block — both delivered blocks have begin 0 and 4 data bytes,
covering only `[0, 4)` — and are left at their zero-initialized value, each
duplicate counting fully toward `downloaded`. -/
theorem duplicate_blocks_counted_fully :
    (attemptDownloadPiece 0 8 false []
        [some ⟨7, [0, 0, 0, 0, 0, 0, 0, 0, 1, 1, 1, 1]⟩,
          some ⟨7, [0, 0, 0, 0, 0, 0, 0, 0, 1, 1, 1, 1]⟩]).2.2 =
      .ok [1, 1, 1, 1, 0, 0, 0, 0] ∧
    beBytes4 (((⟨7, [0, 0, 0, 0, 0, 0, 0, 0, 1, 1, 1, 1]⟩ : Message).Payload.drop 4).take 4)
      = 0 ∧
    ((⟨7, [0, 0, 0, 0, 0, 0, 0, 0, 1, 1, 1, 1]⟩ : Message).Payload.drop 8).length = 4 ∧
    List.drop 4 [1, 1, 1, 1, 0, 0, 0, 0] = List.replicate 4 (0 : Nat) :=
  ⟨rfl, rfl, rfl, by decide⟩

/-- `p2p.pieceWork` (part_000 lines 34-38). -/
structure PieceWork where
  index : Nat
  hash : List Nat
  length : Nat
  deriving DecidableEq, Repr

/-- `p2p.pieceResult` (part_000 lines 40-43). -/
structure PieceResult where
  index : Nat
  buf : List Nat
  deriving DecidableEq, Repr

/-- `p2p.checkIntegrity` (part_000 lines 128-134), parameterized by the hash
function (`crypto/sha1` is standard-library code, external to this
repository): succeeds iff the buffer hashes to the expected piece hash. -/
def checkIntegrity (hashFn : List Nat → List Nat) (pw : PieceWork)
    (buf : List Nat) : Bool :=
  hashFn buf == pw.hash

/-- Whether one iteration of the worker queue loop falls through to the next
iteration (`continue`) or returns from the worker (`return`). -/
inductive WorkerOutcome where
  | continued
  | terminated
  deriving DecidableEq, Repr

/-- One iteration of the `startDownloadWorker` queue loop (part_000 lines
148-171) on the dequeued `pw`: re-enqueue and continue when the peer's
bitfield lacks the piece; re-enqueue and terminate when the download attempt
errors; re-enqueue and continue when the integrity check fails; otherwise
call SendHave — whose error the Go code discards, so the `sendHaveFails`
argument is never consulted — and publish the result.  `msgs` is the
inbound message schedule for the download attempt.  Returns the new queue,
the results list, the index of the Have sent (if the success path ran), and
the loop outcome. -/
def workerStep (hashFn : List Nat → List Nat) (sendHaveFails : Bool)
    (choked : Bool) (bf : List Nat) (pw : PieceWork)
    (msgs : List (Option Message)) (queue : List PieceWork)
    (results : List PieceResult) :
    List PieceWork × List PieceResult × Option Nat × WorkerOutcome :=
  if hasPiece bf pw.index = false then
    (queue ++ [pw], results, none, .continued)
  else
    match (attemptDownloadPiece pw.index pw.length choked bf msgs).2.2 with
    | .error _ => (queue ++ [pw], results, none, .terminated)
    | .ok buf =>
      if checkIntegrity hashFn pw buf = false then
        (queue ++ [pw], results, none, .continued)
      else
        (queue, results ++ [⟨pw.index, buf⟩], some pw.index, .continued)

/-- C1 (amended): the worker ignores `SendHave`'s return value: after a
download that passes the integrity check it always publishes the
PieceResult, never re-enqueues the piece, and continues the loop — whether
or not the Have write succeeds. -/
theorem worker_sendHave_ignored (hashFn : List Nat → List Nat) (choked : Bool)
    (bf : List Nat) (pw : PieceWork) (msgs : List (Option Message))
    (queue : List PieceWork) (results : List PieceResult) (buf : List Nat)
    (hbf : hasPiece bf pw.index = true)
    (hdl : (attemptDownloadPiece pw.index pw.length choked bf msgs).2.2 = .ok buf)
    (hint : checkIntegrity hashFn pw buf = true) :
    ∀ sendHaveFails : Bool, workerStep hashFn sendHaveFails choked bf pw msgs queue results =
      (queue, results ++ [⟨pw.index, buf⟩], some pw.index, .continued) := by
  intro sendHaveFails
  simp only [workerStep, hbf, hdl, hint]
  simp

/-- C1 as stated is false: on this concrete run the Have write fails
(`sendHaveFails = true`), yet the worker publishes the PieceResult, does not
re-enqueue the piece, and continues instead of terminating. -/
theorem worker_sendHave_counterexample :
    workerStep (fun _ => List.replicate 20 0) true false [128]
      ⟨0, List.replicate 20 0, 8⟩
      [some ⟨7, [0, 0, 0, 0, 0, 0, 0, 0, 1, 1, 1, 1, 1, 1, 1, 1]⟩] [] [] =
      ([], [⟨0, [1, 1, 1, 1, 1, 1, 1, 1]⟩], some 0, .continued) := by
  rfl

/-- Witness for C1 (amended) at the same concrete run with a succeeding
Have write. -/
theorem worker_sendHave_witness :
    hasPiece [128] 0 = true ∧
    workerStep (fun _ => List.replicate 20 0) false false [128]
      ⟨0, List.replicate 20 0, 8⟩
      [some ⟨7, [0, 0, 0, 0, 0, 0, 0, 0, 1, 1, 1, 1, 1, 1, 1, 1]⟩] [] [] =
      ([], [⟨0, [1, 1, 1, 1, 1, 1, 1, 1]⟩], some 0, .continued) :=
  ⟨by decide, worker_sendHave_ignored (fun _ => List.replicate 20 0) false [128]
    ⟨0, List.replicate 20 0, 8⟩
    [some ⟨7, [0, 0, 0, 0, 0, 0, 0, 0, 1, 1, 1, 1, 1, 1, 1, 1]⟩] [] []
    [1, 1, 1, 1, 1, 1, 1, 1] (by decide) rfl (by decide) false⟩

/-- C8: if a worker iteration on dequeued piece `pw` fails before publishing
a PieceResult — the bitfield lacks the piece, the download attempt errors,
or the integrity check fails — then `pw` is re-enqueued exactly once (the
new queue is the old queue plus one trailing copy of `pw`), so `pw` is in
the queue after the failure, and no result is published. -/
theorem worker_requeue_on_failure (hashFn : List Nat → List Nat)
    (sendHaveFails : Bool) (choked : Bool) (bf : List Nat) (pw : PieceWork)
    (msgs : List (Option Message)) (queue : List PieceWork)
    (results : List PieceResult)
    (hfail : (workerStep hashFn sendHaveFails choked bf pw msgs queue results).2.1 =
      results) :
    (workerStep hashFn sendHaveFails choked bf pw msgs queue results).1 =
      queue ++ [pw] ∧
    pw ∈ (workerStep hashFn sendHaveFails choked bf pw msgs queue results).1 := by
  by_cases h1 : hasPiece bf pw.index = false
  · constructor
    · simp [workerStep, h1]
    · simp [workerStep, h1]
  · cases hdl : (attemptDownloadPiece pw.index pw.length choked bf msgs).2.2 with
    | error e =>
      constructor
      · simp [workerStep, h1, hdl]
      · simp [workerStep, h1, hdl]
    | ok buf =>
      by_cases h3 : checkIntegrity hashFn pw buf = false
      · constructor
        · simp [workerStep, h1, hdl, h3]
        · simp [workerStep, h1, hdl, h3]
      · exfalso
        simp only [workerStep, h1, hdl, h3] at hfail
        simp at hfail

/-- Witness for C8 at a concrete failing input: the peer's bitfield is
empty, so the piece is skipped and re-enqueued. -/
theorem worker_requeue_witness :
    (workerStep (fun _ => []) false true [] ⟨0, [], 4⟩ [] [] []).2.1 = [] ∧
    ((workerStep (fun _ => []) false true [] ⟨0, [], 4⟩ [] [] []).1 =
        [] ++ [⟨0, [], 4⟩] ∧
      (⟨0, [], 4⟩ : PieceWork) ∈ (workerStep (fun _ => []) false true [] ⟨0, [], 4⟩ [] [] []).1) :=
  ⟨rfl, worker_requeue_on_failure (fun _ => []) false true [] ⟨0, [], 4⟩ [] [] [] rfl⟩

/-- `Torrent.calcultateBoundsForPiece` (part_000 lines 174-181, keeping the
source's spelling), over the torrent's `PieceLength` and total `Length`
fields; Go `int` arithmetic, hence `Int`. -/
def calcultateBoundsForPiece (pieceLength tlen index : Int) : Int × Int :=
  let begin := index * pieceLength
  let e := begin + pieceLength
  (begin, if e > tlen then tlen else e)

/-- `Torrent.calculatePieceSize` (part_000 lines 183-186). -/
def calculatePieceSize (pieceLength tlen index : Int) : Int :=
  let p := calcultateBoundsForPiece pieceLength tlen index
  p.2 - p.1

/-- C9: for a manifest with `P ≥ 1` pieces, positive piece length and total
length in `((P-1) * pieceLength, P * pieceLength]`, every piece but the last
has size exactly `pieceLength`, and the last piece (index `P - 1`) has size
`tlen - (P-1) * pieceLength`, which lies in `[1, pieceLength]`. -/
theorem calculatePieceSize_spec (P pieceLength tlen i : Int)
    (hP : 1 ≤ P) (hpl : 0 < pieceLength)
    (hlo : (P - 1) * pieceLength < tlen) (hhi : tlen ≤ P * pieceLength) :
    (0 ≤ i → i < P - 1 → calculatePieceSize pieceLength tlen i = pieceLength) ∧
    (calculatePieceSize pieceLength tlen (P - 1) =
        tlen - (P - 1) * pieceLength ∧
      1 ≤ tlen - (P - 1) * pieceLength ∧
      tlen - (P - 1) * pieceLength ≤ pieceLength) := by
  constructor
  · intro hi0 hiP
    have hmul : (i + 1) * pieceLength ≤ (P - 1) * pieceLength :=
      mul_le_mul_of_nonneg_right (by omega) (le_of_lt hpl)
    simp only [calculatePieceSize, calcultateBoundsForPiece]
    rw [if_neg (by nlinarith)]
    ring
  · refine ⟨?_, by omega, by nlinarith⟩
    simp only [calculatePieceSize, calcultateBoundsForPiece]
    by_cases hc : (P - 1) * pieceLength + pieceLength > tlen
    · rw [if_pos hc]
    · rw [if_neg hc]
      have : (P - 1) * pieceLength + pieceLength = P * pieceLength := by ring
      omega

/-- Witness for C9: `P = 3`, piece length 10, total length 25: pieces 0 and
1 have size 10, the last piece has size 5. -/
theorem calculatePieceSize_witness :
    (1 : Int) ≤ 3 ∧
    ((0 ≤ (1 : Int) → (1 : Int) < 3 - 1 → calculatePieceSize 10 25 1 = 10) ∧
      (calculatePieceSize 10 25 (3 - 1) = 25 - (3 - 1) * 10 ∧
        1 ≤ (25 : Int) - (3 - 1) * 10 ∧ (25 : Int) - (3 - 1) * 10 ≤ 10)) :=
  ⟨by norm_num, calculatePieceSize_spec 3 10 25 1 (by norm_num) (by norm_num)
    (by norm_num) (by norm_num)⟩
